import Mathlib

/-!
Verification of the typestate token core in src/jwt.rs.

The repository wraps the external jsonwebtoken crate behind a typestate
API: a subject type implements the `ClaimsSubTrait` contract (a TTL in
seconds and a signing secret), `Claims::new` stamps issued-at and expiry
timestamps and signs, and `Claims::decode` verifies the signature and the
expiry before handing the structured claims back.

Strings are modelled as `List Char`.  The external collaborators
(jsonwebtoken HMAC signing, serde serialization of the flattened claims
body, and the wall clock) are modelled from the contract the design
document states for them: segments are an injective, dot-free character
encoding; signing is a symbolic ideal MAC that is injective in the key
and the message (recoverable by a decoder, standing in for the
collision-free HMAC); the clock is an explicit integer parameter.  The
repository code itself (envelope construction, the encode and decode
transitions, the error wrapper, the From and TryFrom conversions) is
translated statement by statement from src/jwt.rs.
-/

namespace JwtSpec

/-- Lower-case hex digit character for a value below 16. -/
def hexDigit (n : Nat) : Char :=
  if n < 10 then Char.ofNat (48 + n) else Char.ofNat (87 + n)

/-- Value of a lower-case hex digit character, none on any other character. -/
def hexVal (c : Char) : Option Nat :=
  if 48 ≤ c.toNat ∧ c.toNat ≤ 57 then some (c.toNat - 48)
  else if 97 ≤ c.toNat ∧ c.toNat ≤ 102 then some (c.toNat - 87)
  else none

/-- Is this character a lower-case hex digit? -/
def isHexC (c : Char) : Bool :=
  (hexVal c).isSome

/-- Fixed-width (six hex digit) encoding of one character, the building
block of the modelled base64url segment encoding. -/
def encChar (c : Char) : List Char :=
  [hexDigit (c.toNat / 1048576 % 16), hexDigit (c.toNat / 65536 % 16),
   hexDigit (c.toNat / 4096 % 16), hexDigit (c.toNat / 256 % 16),
   hexDigit (c.toNat / 16 % 16), hexDigit (c.toNat % 16)]

/-- Decode one character from six hex digits. -/
def decChar6 (a b c d e f : Char) : Option Char :=
  match hexVal a, hexVal b, hexVal c, hexVal d, hexVal e, hexVal f with
  | some va, some vb, some vc, some vd, some ve, some vf =>
    some (Char.ofNat (va * 1048576 + vb * 65536 + vc * 4096 + vd * 256 + ve * 16 + vf))
  | _, _, _, _, _, _ => none

/-- Segment encoding: models the base64url encoding used for the header
and body segments of the compact token (injective, output alphabet free
of the dot separator). -/
def encStr : List Char → List Char
  | [] => []
  | c :: r => encChar c ++ encStr r

/-- Segment decoding, the inverse of `encStr`; fails on any input that is
not a well-formed segment. -/
def decStr : List Char → Option (List Char)
  | [] => some []
  | a :: b :: c :: d :: e :: f :: r =>
    match decChar6 a b c d e f, decStr r with
    | some ch, some rest => some (ch :: rest)
    | _, _ => none
  | _ => none

/-- Little-endian hex digits of a natural number, with explicit fuel so
the recursion is structural. -/
def natHexAux : Nat → Nat → List Char
  | 0, _ => []
  | fuel + 1, n => if n = 0 then [] else hexDigit (n % 16) :: natHexAux fuel (n / 16)

/-- Little-endian hex digits of a natural number. -/
def natHex (n : Nat) : List Char :=
  natHexAux n n

/-- Read back a natural number from little-endian hex digits. -/
def hexToNat : List Char → Option Nat
  | [] => some 0
  | c :: r =>
    match hexVal c, hexToNat r with
    | some v, some m => some (v + 16 * m)
    | _, _ => none

/-- Serialized form of an integer timestamp field inside the claims body. -/
def intEnc (i : Int) : List Char :=
  if i < 0 then '-' :: natHex i.natAbs else natHex i.natAbs

/-- Parse an integer timestamp field back from the claims body. -/
def intDec : List Char → Option Int
  | [] => some 0
  | c :: r =>
    if c = '-' then (hexToNat r).map (fun n => -(n : Int))
    else (hexToNat (c :: r)).map (fun n => (n : Int))

/-- Split a character list at the first occurrence of a separator. -/
def splitFirst (sep : Char) : List Char → Option (List Char × List Char)
  | [] => none
  | c :: r =>
    if c = sep then some ([], r)
    else (splitFirst sep r).map (fun p => (c :: p.1, p.2))

/-- Split a character list at the last dot, as the jsonwebtoken primitive
splits the compact token into message and signature. -/
def rsplitDot : List Char → Option (List Char × List Char)
  | [] => none
  | c :: r =>
    match rsplitDot r with
    | some p => some (c :: p.1, p.2)
    | none => if c = '.' then some ([], r) else none

/-- Serialized claims body: models the serde serialization of the
`Decoded` struct, whose flattened subject fields sit alongside the fixed
`exp` and `iat` integer fields. -/
def bodyEnc (subSer : List Char) (e i : Int) : List Char :=
  encStr subSer ++ 'g' :: (intEnc e ++ 'g' :: intEnc i)

/-- Parse the claims body back into the serialized subject fields and the
`exp` and `iat` integers. -/
def bodyDec (l : List Char) : Option (List Char × Int × Int) :=
  match splitFirst 'g' l with
  | none => none
  | some (p1, rest) =>
    match splitFirst 'g' rest with
    | none => none
    | some (p2, p3) =>
      match decStr p1, intDec p2, intDec p3 with
      | some sub, some e, some i => some (sub, e, i)
      | _, _, _ => none

/-- Modelled from the spec: the external HMAC signing primitive, as a
symbolic ideal MAC.  The signature determines the key and the message
(collision freedom), and its output alphabet contains no dot, as the
design document requires of the compact, URL-safe wire format. -/
def signModel (secret msg : List Char) : List Char :=
  encStr secret ++ 'g' :: encStr msg

/-- Recover the key and message a symbolic signature was built from; the
witness that `signModel` is injective. -/
def unsign (sig : List Char) : Option (List Char × List Char) :=
  match splitFirst 'g' sig with
  | none => none
  | some (a, b) =>
    match decStr a, decStr b with
    | some s, some m => some (s, m)
    | _, _ => none

/-- Serialized default header (algorithm identifier HS256). -/
def headerHS256 : List Char :=
  ['H', 'S', '2', '5', '6']

/-- Errors of the modelled jsonwebtoken primitive: the kinds its decode
contract can produce (bad structure, bad signature, wrong algorithm,
undecodable segment, undeserializable body, expiry). -/
inductive JwtError where
  | invalidToken
  | invalidSignature
  | invalidAlgorithm
  | base64Error
  | jsonError
  | expiredSignature
deriving DecidableEq

/-- Validation policy of the jsonwebtoken primitive; the default checks
expiry with a 60 second leeway. -/
structure Validation where
  leeway : Int
  validateExp : Bool

/-- Models `Validation::default()`: validate `exp` with 60 seconds leeway. -/
def Validation.default : Validation :=
  ⟨60, true⟩

/-- Message part of the compact token: encoded header, dot, encoded body. -/
def jwtMessage (body : List Char) : List Char :=
  encStr headerHS256 ++ '.' :: encStr body

/-- Modelled from the spec: `jsonwebtoken::encode` — serialize header and
claims body, sign the message with the secret, and append the signature
after a dot. -/
def jwtEncode (body secret : List Char) : List Char :=
  jwtMessage body ++ '.' :: signModel secret (jwtMessage body)

/-- The envelope carried by a decoded token: the subject plus the `exp`
and `iat` timestamps (struct `Decoded<T>` of src/jwt.rs). -/
structure Decoded (α : Type) where
  sub : α
  exp : Int
  iat : Int

/-- Modelled from the spec: `jsonwebtoken::decode` — split off the
signature at the last dot, split the message into header and body
segments, decode and check the header algorithm, verify the signature
with the expected secret, deserialize the body, check expiry against the
current time with the leeway of the validation policy, and deserialize
the subject. -/
def jwtDecode {α : Type} (tok secret : List Char) (v : Validation) (now : Int)
    (deser : List Char → Option α) : Except JwtError (Decoded α) :=
  match rsplitDot tok with
  | none => .error .invalidToken
  | some (message, sigGiven) =>
    match rsplitDot message with
    | none => .error .invalidToken
    | some (hSeg, cSeg) =>
      match decStr hSeg with
      | none => .error .base64Error
      | some hdr =>
        if hdr = headerHS256 then
          if signModel secret message = sigGiven then
            match decStr cSeg with
            | none => .error .base64Error
            | some body =>
              match bodyDec body with
              | none => .error .jsonError
              | some (subSer, e, i) =>
                if v.validateExp = true ∧ e < now - v.leeway then .error .expiredSignature
                else
                  match deser subSer with
                  | none => .error .jsonError
                  | some a => .ok ⟨a, e, i⟩
          else .error .invalidSignature
        else .error .invalidAlgorithm

/-- The error enum of src/jwt.rs: a single transparent wrapper around the
error of the jsonwebtoken primitive. -/
inductive Error where
  | jsonwebtoken (e : JwtError)
deriving DecidableEq

/-- Constructor index of an `Error` value: the error kind at this layer. -/
def Error.kindIdx : Error → Nat
  | .jsonwebtoken _ => 0

/-- The subject capability contract (`ClaimsSubTrait`): the TTL in
seconds, the signing secret, and the serde serialization of the subject
into (and out of) the claims body. -/
structure ClaimsSub (α : Type) where
  DURATION : Nat
  secret : List Char
  ser : α → List Char
  deser : List Char → Option α

/-- `Claims<T, Encoded>`: the typestate token in the encoded state,
holding only the opaque signed string. -/
structure ClaimsEncoded (α : Type) where
  claims : List Char

/-- `Claims<T, Decoded<T>>`: the typestate token in the decoded state,
holding the verified envelope. -/
structure ClaimsDecoded (α : Type) where
  claims : Decoded α

/-- The two typestate tags, for stating which state an operation returns. -/
inductive StateTag where
  | encodedTag
  | decodedTag
deriving DecidableEq

/-- State tag of an encoded-state token. -/
def ClaimsEncoded.stateTag {α : Type} (_ : ClaimsEncoded α) : StateTag :=
  .encodedTag

/-- State tag of a decoded-state token. -/
def ClaimsDecoded.stateTag {α : Type} (_ : ClaimsDecoded α) : StateTag :=
  .decodedTag

/-- Serde serialization of the `Decoded` struct: flattened subject fields
next to the `exp` and `iat` fields. -/
def serializeDecoded {α : Type} (C : ClaimsSub α) (d : Decoded α) : List Char :=
  bodyEnc (C.ser d.sub) d.exp d.iat

/-- The token string `Claims::encode` produces: default header and the
serialized envelope, signed with the secret of the subject type. -/
def Claims.encodeStr {α : Type} (C : ClaimsSub α) (self : ClaimsDecoded α) : List Char :=
  jwtEncode (serializeDecoded C self.claims) C.secret

/-- `Claims::encode` (src/jwt.rs lines 70–81): sign the envelope into an
encoded-state token.  The jsonwebtoken primitive is infallible on
well-formed input, so the result is always ok. -/
def Claims.encode {α : Type} (C : ClaimsSub α) (self : ClaimsDecoded α) :
    Except Error (ClaimsEncoded α) :=
  Except.ok ⟨Claims.encodeStr C self⟩

/-- The envelope `Claims::new` builds (src/jwt.rs lines 47–57): stamp the
current time as `iat` and the current time plus the DURATION of the
subject type as `exp`. -/
def Claims.mkEnvelope {α : Type} (C : ClaimsSub α) (now : Int) (sub : α) : ClaimsDecoded α :=
  ⟨⟨sub, now + (C.DURATION : Int), now⟩⟩

/-- `Claims::new` (src/jwt.rs lines 46–60): build the stamped envelope
and immediately encode it. -/
def Claims.new {α : Type} (C : ClaimsSub α) (now : Int) (sub : α) :
    Except Error (ClaimsEncoded α) :=
  Claims.encode C (Claims.mkEnvelope C now sub)

/-- `Claims::token`: extract the transportable string, consuming the
encoded-state token. -/
def Claims.token {α : Type} (self : ClaimsEncoded α) : List Char :=
  self.claims

/-- `From<String> for Claims<T, Encoded>` (src/jwt.rs lines 110–117):
wrap an arbitrary string into an encoded-state token, unchanged. -/
def Claims.fromString {α : Type} (s : List Char) : ClaimsEncoded α :=
  ⟨s⟩

/-- `Claims::decode` (src/jwt.rs lines 93–107): run the jsonwebtoken
decode with the secret of the expected subject type and the default
validation policy, wrapping a primitive error into `Error`. -/
def Claims.decode {α : Type} (C : ClaimsSub α) (now : Int) (self : ClaimsEncoded α) :
    Except Error (ClaimsDecoded α) :=
  match jwtDecode self.claims C.secret Validation.default now C.deser with
  | .ok d => .ok ⟨d⟩
  | .error e => .error (Error.jsonwebtoken e)

/-- `Claims::sub`: extract the subject, consuming the decoded-state token. -/
def Claims.sub {α : Type} (self : ClaimsDecoded α) : α :=
  self.claims.sub

/-- `Claims::claims`: extract the envelope, consuming the decoded-state
token. -/
def Claims.claimsOf {α : Type} (self : ClaimsDecoded α) : Decoded α :=
  self.claims

/-- `TryFrom<String> for ClaimsDecoded<T>` (src/jwt.rs lines 119–132):
wrap the string into an encoded-state token and decode it. -/
def Claims.tryFromString {α : Type} (C : ClaimsSub α) (now : Int) (s : List Char) :
    Except Error (ClaimsDecoded α) :=
  Claims.decode C now (Claims.fromString s)

/-- Message segment (header dot body) of the token encoded from an
envelope. -/
def Claims.msgStr {α : Type} (C : ClaimsSub α) (d : Decoded α) : List Char :=
  jwtMessage (serializeDecoded C d)

/-- Signature segment of the token encoded from an envelope. -/
def Claims.sigStr {α : Type} (C : ClaimsSub α) (d : Decoded α) : List Char :=
  signModel C.secret (Claims.msgStr C d)

/-- Is this result an error? -/
def isErr {ε β : Type} : Except ε β → Bool
  | .error _ => true
  | .ok _ => false

/-- Concrete subject contract used by the witnesses: subjects are raw
character lists, serialized as themselves. -/
def CW : ClaimsSub (List Char) :=
  ⟨5, ['k'], fun s => s, fun s => some s⟩

/-- Second witness contract, identical fields but a different secret. -/
def CW2 : ClaimsSub (List Char) :=
  ⟨5, ['q'], fun s => s, fun s => some s⟩

/-- Concrete envelope used by the witnesses. -/
def dW : Decoded (List Char) :=
  ⟨[], 5, 0⟩

/-- Every character codepoint is below 0x110000. -/
theorem toNat_lt_valid (c : Char) : c.toNat < 1114112 := by
  obtain ⟨⟨⟨n, hlt⟩⟩, hvalid⟩ := c
  show n < 1114112
  rcases hvalid with h | ⟨_, h2⟩
  · have hn : n < 55296 := h
    omega
  · exact h2

/-- Converting a codepoint back gives the character it came from. -/
theorem ofNat_toNat_self (c : Char) : Char.ofNat c.toNat = c := by
  obtain ⟨⟨⟨n, hlt⟩⟩, hvalid⟩ := c
  have hv : Nat.isValidChar n := by
    rcases hvalid with h | ⟨h1, h2⟩
    · exact Or.inl h
    · exact Or.inr ⟨h1, h2⟩
  show Char.ofNat n = _
  unfold Char.ofNat
  rw [dif_pos hv]
  rfl

/-- Hex digits decode back to their value. -/
theorem hexVal_hexDigit {n : Nat} (h : n < 16) : hexVal (hexDigit n) = some n := by
  interval_cases n <;> decide

/-- Hex digits are in the hex alphabet. -/
theorem isHexC_hexDigit {n : Nat} (h : n < 16) : isHexC (hexDigit n) = true := by
  simp [isHexC, hexVal_hexDigit h]

/-- Decoding the six digits of an encoded character gives it back. -/
theorem decChar6_encChar (c : Char) :
    decChar6 (hexDigit (c.toNat / 1048576 % 16)) (hexDigit (c.toNat / 65536 % 16))
      (hexDigit (c.toNat / 4096 % 16)) (hexDigit (c.toNat / 256 % 16))
      (hexDigit (c.toNat / 16 % 16)) (hexDigit (c.toNat % 16)) = some c := by
  have h16 : ∀ m : Nat, m % 16 < 16 := fun m => Nat.mod_lt _ (by norm_num)
  simp only [decChar6, hexVal_hexDigit (h16 _)]
  congr 1
  have hb : c.toNat < 16777216 := Nat.lt_trans (toNat_lt_valid c) (by norm_num)
  have harith : c.toNat / 1048576 % 16 * 1048576 + c.toNat / 65536 % 16 * 65536 +
      c.toNat / 4096 % 16 * 4096 + c.toNat / 256 % 16 * 256 +
      c.toNat / 16 % 16 * 16 + c.toNat % 16 = c.toNat := by
    omega
  rw [harith, ofNat_toNat_self]

/-- Segment decoding inverts segment encoding. -/
theorem decStr_encStr (s : List Char) : decStr (encStr s) = some s := by
  induction s with
  | nil => rfl
  | cons c r ih =>
    show decStr (encChar c ++ encStr r) = some (c :: r)
    have hcons : encChar c ++ encStr r =
        hexDigit (c.toNat / 1048576 % 16) :: hexDigit (c.toNat / 65536 % 16) ::
        hexDigit (c.toNat / 4096 % 16) :: hexDigit (c.toNat / 256 % 16) ::
        hexDigit (c.toNat / 16 % 16) :: hexDigit (c.toNat % 16) :: encStr r := rfl
    rw [hcons]
    simp only [decStr]
    rw [decChar6_encChar, ih]

/-- Every character of an encoded segment is a hex digit. -/
theorem encStr_all_hex {s : List Char} {ch : Char} (h : ch ∈ encStr s) : isHexC ch = true := by
  induction s with
  | nil => simp [encStr] at h
  | cons c r ih =>
    simp only [encStr, List.mem_append] at h
    rcases h with h | h
    · have h16 : ∀ m : Nat, m % 16 < 16 := fun m => Nat.mod_lt _ (by norm_num)
      simp only [encChar, List.mem_cons, List.not_mem_nil, or_false] at h
      rcases h with h | h | h | h | h | h <;> rw [h] <;> exact isHexC_hexDigit (h16 _)
    · exact ih h

/-- Segment decoding consumes a well-formed prefix compositionally. -/
theorem decStr_encStr_append (s l : List Char) :
    decStr (encStr s ++ l) = (decStr l).map (fun r => s ++ r) := by
  induction s with
  | nil =>
    show decStr l = (decStr l).map (fun r => [] ++ r)
    cases decStr l <;> simp
  | cons c r ih =>
    show decStr (encChar c ++ encStr r ++ l) = _
    simp only [encChar, List.cons_append, List.nil_append, List.append_assoc]
    rw [decStr]
    simp only [decChar6_encChar, ih]
    cases decStr l <;> simp

/-- A segment starting with a dot never decodes. -/
theorem decStr_dot_cons (r : List Char) : decStr ('.' :: r) = none := by
  have hdot : hexVal '.' = none := by decide
  rcases r with _ | ⟨b, _ | ⟨c, _ | ⟨d, _ | ⟨e, _ | ⟨f, r⟩⟩⟩⟩⟩ <;>
    simp [decStr, decChar6, hdot]

/-- Reading back the little-endian hex digits of a bounded number. -/
theorem hexToNat_natHexAux : ∀ (fuel n : Nat), n ≤ fuel → hexToNat (natHexAux fuel n) = some n := by
  intro fuel
  induction fuel with
  | zero =>
    intro n h
    have hn : n = 0 := Nat.le_zero.mp h
    subst hn
    rfl
  | succ fuel ih =>
    intro n h
    by_cases h0 : n = 0
    · subst h0
      simp [natHexAux, hexToNat]
    · have hmod : n % 16 < 16 := Nat.mod_lt _ (by norm_num)
      have hdiv : n / 16 ≤ fuel := by
        have := Nat.div_lt_self (Nat.pos_of_ne_zero h0) (by norm_num : 1 < 16)
        omega
      simp only [natHexAux, if_neg h0, hexToNat, hexVal_hexDigit hmod, ih _ hdiv]
      have : n % 16 + 16 * (n / 16) = n := by omega
      rw [this]

/-- Reading back the hex digits of a natural number. -/
theorem hexToNat_natHex (n : Nat) : hexToNat (natHex n) = some n :=
  hexToNat_natHexAux n n (Nat.le_refl n)

/-- Every character of a hex-digit numeral is a hex digit. -/
theorem natHexAux_all_hex : ∀ (fuel n : Nat), ∀ ch ∈ natHexAux fuel n, isHexC ch = true := by
  intro fuel
  induction fuel with
  | zero => intro n ch h; simp [natHexAux] at h
  | succ fuel ih =>
    intro n ch h
    by_cases h0 : n = 0
    · subst h0; simp [natHexAux] at h
    · simp only [natHexAux, if_neg h0, List.mem_cons] at h
      rcases h with h | h
      · rw [h]
        exact isHexC_hexDigit (Nat.mod_lt _ (by norm_num))
      · exact ih _ _ h

/-- Characters of a serialized integer: a minus sign or hex digits. -/
theorem intEnc_chars {i : Int} {ch : Char} (h : ch ∈ intEnc i) :
    ch = '-' ∨ isHexC ch = true := by
  unfold intEnc at h
  by_cases hneg : i < 0
  · rw [if_pos hneg] at h
    rcases List.mem_cons.mp h with h | h
    · exact Or.inl h
    · exact Or.inr (natHexAux_all_hex _ _ _ h)
  · rw [if_neg hneg] at h
    exact Or.inr (natHexAux_all_hex _ _ _ h)

/-- Parsing back a serialized integer. -/
theorem intDec_intEnc (i : Int) : intDec (intEnc i) = some i := by
  by_cases hneg : i < 0
  · rw [intEnc, if_pos hneg]
    show intDec ('-' :: natHex i.natAbs) = some i
    rw [intDec, if_pos rfl, hexToNat_natHex]
    show some (-(i.natAbs : Int)) = some i
    congr 1
    omega
  · rw [intEnc, if_neg hneg]
    rcases hl : natHex i.natAbs with _ | ⟨c, r⟩
    · have h0 : hexToNat (natHex i.natAbs) = some i.natAbs := hexToNat_natHex _
      rw [hl] at h0
      have : (0 : Nat) = i.natAbs := by
        have := h0
        simp [hexToNat] at this
        omega
      show intDec [] = some i
      rw [intDec]
      congr 1
      omega
    · have hc : isHexC c = true := by
        have : c ∈ natHex i.natAbs := by rw [hl]; exact List.mem_cons_self c r
        exact natHexAux_all_hex _ _ _ this
      have hcm : ¬ c = '-' := by
        intro he
        rw [he] at hc
        simp [isHexC, hexVal] at hc
      rw [intDec, if_neg hcm, ← hl, hexToNat_natHex]
      show some ((i.natAbs : Int)) = some i
      congr 1
      omega

/-- Splitting at the first separator after a separator-free prefix. -/
theorem splitFirst_append {sep : Char} {xs : List Char} (ys : List Char) (h : sep ∉ xs) :
    splitFirst sep (xs ++ sep :: ys) = some (xs, ys) := by
  induction xs with
  | nil =>
    show splitFirst sep (sep :: ys) = some ([], ys)
    rw [splitFirst, if_pos rfl]
  | cons c r ih =>
    have hc : ¬ c = sep := fun he => h (he ▸ List.mem_cons_self c r)
    have hr : sep ∉ r := fun hm => h (List.mem_cons_of_mem c hm)
    show splitFirst sep (c :: (r ++ sep :: ys)) = some (c :: r, ys)
    rw [splitFirst, if_neg hc, ih hr]
    rfl

/-- A dot-free list has no last dot. -/
theorem rsplitDot_none {l : List Char} (h : '.' ∉ l) : rsplitDot l = none := by
  induction l with
  | nil => rfl
  | cons c r ih =>
    have hc : ¬ c = '.' := fun he => h (he ▸ List.mem_cons_self c r)
    have hr : '.' ∉ r := fun hm => h (List.mem_cons_of_mem c hm)
    rw [rsplitDot, ih hr, if_neg hc]

/-- Splitting at the last dot when the suffix after it is dot-free. -/
theorem rsplitDot_append {ys : List Char} (xs : List Char) (h : '.' ∉ ys) :
    rsplitDot (xs ++ '.' :: ys) = some (xs, ys) := by
  induction xs with
  | nil =>
    show rsplitDot ('.' :: ys) = some ([], ys)
    rw [rsplitDot, rsplitDot_none h, if_pos rfl]
  | cons c r ih =>
    show rsplitDot (c :: (r ++ '.' :: ys)) = some (c :: r, ys)
    rw [rsplitDot, ih]

/-- Parsing back a serialized claims body. -/
theorem bodyDec_bodyEnc (subSer : List Char) (e i : Int) :
    bodyDec (bodyEnc subSer e i) = some (subSer, e, i) := by
  have hg1 : 'g' ∉ encStr subSer := by
    intro hm
    have := encStr_all_hex hm
    simp [isHexC, hexVal] at this
  have hg2 : 'g' ∉ intEnc e := by
    intro hm
    rcases intEnc_chars hm with h | h
    · simp at h
    · simp [isHexC, hexVal] at h
  simp only [bodyDec, bodyEnc, splitFirst_append _ hg1, splitFirst_append _ hg2,
    decStr_encStr, intDec_intEnc]

/-- Characters of a symbolic signature: hex digits or the separator. -/
theorem signModel_chars {secret msg : List Char} {ch : Char} (h : ch ∈ signModel secret msg) :
    isHexC ch = true ∨ ch = 'g' := by
  unfold signModel at h
  rcases List.mem_append.mp h with h | h
  · exact Or.inl (encStr_all_hex h)
  · rcases List.mem_cons.mp h with h | h
    · exact Or.inr h
    · exact Or.inl (encStr_all_hex h)

/-- A symbolic signature never contains a dot. -/
theorem signModel_no_dot {secret msg : List Char} : '.' ∉ signModel secret msg := by
  intro hm
  rcases signModel_chars hm with h | h
  · simp [isHexC, hexVal] at h
  · simp at h

/-- Recovering the key and message from a symbolic signature: the
signature of the ideal MAC determines both. -/
theorem unsign_signModel (secret msg : List Char) :
    unsign (signModel secret msg) = some (secret, msg) := by
  have hg : 'g' ∉ encStr secret := by
    intro hm
    have := encStr_all_hex hm
    simp [isHexC, hexVal] at this
  simp only [unsign, signModel, splitFirst_append _ hg, decStr_encStr]

/-- Encoded segments are dot-free. -/
theorem encStr_no_dot (s : List Char) : '.' ∉ encStr s := by
  intro hm
  have := encStr_all_hex hm
  simp [isHexC, hexVal] at this

/-- Decoding a freshly encoded token: the structural checks and the
signature check pass, leaving the body parse, the expiry check and the
subject deserialization. -/
theorem jwtDecode_jwtEncode {α : Type} (body secret : List Char) (v : Validation) (now : Int)
    (deser : List Char → Option α) :
    jwtDecode (jwtEncode body secret) secret v now deser =
      match bodyDec body with
      | none => .error .jsonError
      | some (subSer, e, i) =>
        if v.validateExp = true ∧ e < now - v.leeway then .error .expiredSignature
        else
          match deser subSer with
          | none => .error .jsonError
          | some a => .ok ⟨a, e, i⟩ := by
  have h1 : rsplitDot (jwtEncode body secret) =
      some (jwtMessage body, signModel secret (jwtMessage body)) := by
    rw [jwtEncode]
    exact rsplitDot_append _ signModel_no_dot
  have h2 : rsplitDot (jwtMessage body) = some (encStr headerHS256, encStr body) := by
    rw [jwtMessage]
    exact rsplitDot_append _ (encStr_no_dot body)
  simp only [jwtDecode, h1, h2, decStr_encStr, eq_self_iff_true, if_true]

/-- Decoding the token encoded from an envelope, at the repository layer:
expired tokens are rejected, fresh ones deserialize the subject back. -/
theorem Claims_decode_encodeStr {α : Type} (C : ClaimsSub α) (d : Decoded α) (now : Int) :
    Claims.decode C now (Claims.fromString (Claims.encodeStr C ⟨d⟩)) =
      if d.exp < now - 60 then Except.error (Error.jsonwebtoken JwtError.expiredSignature)
      else
        match C.deser (C.ser d.sub) with
        | none => Except.error (Error.jsonwebtoken JwtError.jsonError)
        | some a => Except.ok ⟨⟨a, d.exp, d.iat⟩⟩ := by
  simp only [Claims.decode, Claims.fromString, Claims.encodeStr, serializeDecoded]
  rw [jwtDecode_jwtEncode]
  simp only [bodyDec_bodyEnc, Validation.default, eq_self_iff_true, true_and]
  by_cases hexp : d.exp < now - 60
  · rw [if_pos hexp, if_pos hexp]
  · rw [if_neg hexp, if_neg hexp]
    cases hdes : C.deser (C.ser d.sub) <;> simp

/-- C1: creating a token from a subject, extracting its transportable
string, wrapping the string back into an encoded-state token and decoding
it before expiry succeeds and yields the subject back (given the serde
round-trip contract of the subject serialization). -/
theorem claim1_round_trip {α : Type} (C : ClaimsSub α) (a : α) (now nowd : Int)
    (t : ClaimsEncoded α)
    (hser : C.deser (C.ser a) = some a)
    (hnew : Claims.new C now a = Except.ok t)
    (hfresh : nowd ≤ now + (C.DURATION : Int)) :
    Claims.decode C nowd (Claims.fromString (Claims.token t)) =
      Except.ok (Claims.mkEnvelope C now a) ∧
    Claims.sub (Claims.mkEnvelope C now a) = a := by
  have ht : t = ⟨Claims.encodeStr C (Claims.mkEnvelope C now a)⟩ := (Except.ok.inj hnew).symm
  subst ht
  refine ⟨?_, rfl⟩
  show Claims.decode C nowd
      (Claims.fromString (Claims.encodeStr C ⟨⟨a, now + (C.DURATION : Int), now⟩⟩)) = _
  rw [Claims_decode_encodeStr C ⟨a, now + (C.DURATION : Int), now⟩ nowd,
    if_neg (show ¬ ((⟨a, now + (C.DURATION : Int), now⟩ : Decoded α).exp < nowd - 60) from by
      show ¬ (now + (C.DURATION : Int) < nowd - 60)
      omega)]
  have hser2 : C.deser (C.ser (⟨a, now + (C.DURATION : Int), now⟩ : Decoded α).sub) = some a :=
    hser
  rw [hser2]
  rfl

/-- C1 witness: a concrete round trip through encode and decode. -/
theorem claim1_round_trip_witness :
    CW.deser (CW.ser []) = some [] ∧
    Claims.new CW 0 [] = Except.ok ⟨Claims.encodeStr CW (Claims.mkEnvelope CW 0 [])⟩ ∧
    (3 : Int) ≤ 0 + (CW.DURATION : Int) ∧
    Claims.decode CW 3 (Claims.fromString (Claims.token
      (⟨Claims.encodeStr CW (Claims.mkEnvelope CW 0 [])⟩ : ClaimsEncoded (List Char)))) =
      Except.ok (Claims.mkEnvelope CW 0 []) :=
  ⟨rfl, rfl, by decide, (claim1_round_trip CW [] 0 3 _ rfl rfl (by decide)).1⟩

/-- C3 counterexample: `Claims::new` already returns a token in the
Encoded state, not the Decoded state the claim asserts. -/
theorem claim3_counterexample :
    (Claims.new CW 0 []).map ClaimsEncoded.stateTag = Except.ok StateTag.encodedTag ∧
    StateTag.encodedTag ≠ StateTag.decodedTag :=
  ⟨rfl, by decide⟩

/-- C3 amended: `Claims::new` builds the decoded-state envelope
internally and immediately applies the encode transition, returning a
token already in the Encoded state. -/
theorem claim3_amended {α : Type} (C : ClaimsSub α) (now : Int) (a : α) :
    Claims.new C now a = Claims.encode C (Claims.mkEnvelope C now a) ∧
    (Claims.new C now a).map ClaimsEncoded.stateTag = Except.ok StateTag.encodedTag :=
  ⟨rfl, rfl⟩

/-- C4: decoding a token strictly after its expiry plus the 60 second
default leeway fails with a verification error. -/
theorem claim4_expired {α : Type} (C : ClaimsSub α) (a : α) (now nowd : Int)
    (t : ClaimsEncoded α)
    (hnew : Claims.new C now a = Except.ok t)
    (hexp : now + (C.DURATION : Int) + 60 < nowd) :
    Claims.decode C nowd (Claims.fromString (Claims.token t)) =
      Except.error (Error.jsonwebtoken JwtError.expiredSignature) := by
  have ht : t = ⟨Claims.encodeStr C (Claims.mkEnvelope C now a)⟩ := (Except.ok.inj hnew).symm
  subst ht
  show Claims.decode C nowd
      (Claims.fromString (Claims.encodeStr C ⟨⟨a, now + (C.DURATION : Int), now⟩⟩)) = _
  rw [Claims_decode_encodeStr C ⟨a, now + (C.DURATION : Int), now⟩ nowd,
    if_pos (show (⟨a, now + (C.DURATION : Int), now⟩ : Decoded α).exp < nowd - 60 from by
      show now + (C.DURATION : Int) < nowd - 60
      omega)]

/-- C4 witness: a concrete expired decode. -/
theorem claim4_expired_witness :
    Claims.new CW 0 [] = Except.ok ⟨Claims.encodeStr CW (Claims.mkEnvelope CW 0 [])⟩ ∧
    (0 : Int) + (CW.DURATION : Int) + 60 < 100 ∧
    Claims.decode CW 100 (Claims.fromString (Claims.token
      (⟨Claims.encodeStr CW (Claims.mkEnvelope CW 0 [])⟩ : ClaimsEncoded (List Char)))) =
      Except.error (Error.jsonwebtoken JwtError.expiredSignature) :=
  ⟨rfl, by decide, claim4_expired CW [] 0 100 _ rfl (by decide)⟩

/-- C5: the envelope built by `Claims::new` satisfies
`iat ≤ exp` and `exp - iat = DURATION` exactly. -/
theorem claim5_timestamps {α : Type} (C : ClaimsSub α) (now : Int) (a : α) :
    (Claims.mkEnvelope C now a).claims.iat ≤ (Claims.mkEnvelope C now a).claims.exp ∧
    (Claims.mkEnvelope C now a).claims.exp - (Claims.mkEnvelope C now a).claims.iat
      = (C.DURATION : Int) := by
  constructor
  · show now ≤ now + (C.DURATION : Int)
    omega
  · show now + (C.DURATION : Int) - now = (C.DURATION : Int)
    omega

/-- C6: wrapping an arbitrary string into an encoded-state token is a
total conversion that stores the string unchanged; nothing is parsed
until decode. -/
theorem claim6_opacity {α : Type} (s : List Char) :
    (Claims.fromString s : ClaimsEncoded α) = ⟨s⟩ ∧
    Claims.token (Claims.fromString s : ClaimsEncoded α) = s :=
  ⟨rfl, rfl⟩

/-- C9: the issued-at stamped by `Claims::new` is the time read from the
clock during creation, so it lies between any bounds on that read. -/
theorem claim9_issued_at {α : Type} (C : ClaimsSub α) (a : α) (t0 now t1 : Int)
    (h0 : t0 ≤ now) (h1 : now ≤ t1) :
    t0 ≤ (Claims.mkEnvelope C now a).claims.iat ∧
    (Claims.mkEnvelope C now a).claims.iat ≤ t1 :=
  ⟨h0, h1⟩

/-- C9 witness: concrete bounds on a concrete creation time. -/
theorem claim9_issued_at_witness :
    (0 : Int) ≤ 1 ∧ (1 : Int) ≤ 2 ∧
    ((0 : Int) ≤ (Claims.mkEnvelope CW 1 []).claims.iat ∧
     (Claims.mkEnvelope CW 1 []).claims.iat ≤ 2) :=
  ⟨by decide, by decide, claim9_issued_at CW [] 0 1 2 (by decide) (by decide)⟩

/-- C10: the TryFrom conversion of a string into a decoded-state token is
exactly the From conversion into the encoded state followed by decode. -/
theorem claim10_try_from {α : Type} (C : ClaimsSub α) (now : Int) (s : List Char) :
    Claims.tryFromString C now s = Claims.decode C now (Claims.fromString s) :=
  rfl

/-- Verifying a token against a different secret than the one it was
signed with fails the signature check, whatever the current time. -/
theorem jwtDecode_wrong_secret {α : Type} (body s1 s2 : List Char) (v : Validation) (now : Int)
    (deser : List Char → Option α) (h : s1 ≠ s2) :
    jwtDecode (jwtEncode body s1) s2 v now deser = .error .invalidSignature := by
  have h1 : rsplitDot (jwtEncode body s1) =
      some (jwtMessage body, signModel s1 (jwtMessage body)) := by
    rw [jwtEncode]
    exact rsplitDot_append _ signModel_no_dot
  have h2 : rsplitDot (jwtMessage body) = some (encStr headerHS256, encStr body) := by
    rw [jwtMessage]
    exact rsplitDot_append _ (encStr_no_dot body)
  have hsig : ¬ (signModel s2 (jwtMessage body) = signModel s1 (jwtMessage body)) := by
    intro he
    have hu := congrArg unsign he
    rw [unsign_signModel, unsign_signModel] at hu
    exact h (congrArg Prod.fst (Option.some.inj hu)).symm
  simp only [jwtDecode, h1, h2, decStr_encStr, eq_self_iff_true, if_true, if_neg hsig]

/-- The repository layer decode under a wrong secret. -/
theorem Claims_decode_wrong_secret {α β : Type} (CA : ClaimsSub α) (CB : ClaimsSub β)
    (d : Decoded α) (now : Int) (hsec : CA.secret ≠ CB.secret) :
    Claims.decode CB now (Claims.fromString (Claims.encodeStr CA ⟨d⟩)) =
      Except.error (Error.jsonwebtoken JwtError.invalidSignature) := by
  simp only [Claims.decode, Claims.fromString, Claims.encodeStr, serializeDecoded]
  rw [jwtDecode_wrong_secret _ _ _ _ _ _ hsec]

/-- C2: a token created for subject type A fails to decode as subject
type B whenever the two secrets differ, whatever the structural shape of
the two subject types. -/
theorem claim2_secret_isolation {α β : Type} (CA : ClaimsSub α) (CB : ClaimsSub β)
    (a : α) (now nowd : Int) (t : ClaimsEncoded α)
    (hsec : CA.secret ≠ CB.secret)
    (hnew : Claims.new CA now a = Except.ok t) :
    Claims.decode CB nowd (Claims.fromString (Claims.token t)) =
      Except.error (Error.jsonwebtoken JwtError.invalidSignature) := by
  have ht : t = ⟨Claims.encodeStr CA (Claims.mkEnvelope CA now a)⟩ := (Except.ok.inj hnew).symm
  subst ht
  exact Claims_decode_wrong_secret CA CB (Claims.mkEnvelope CA now a).claims nowd hsec

/-- C2 witness: two contracts with structurally identical subjects but
different secrets; the cross decode fails. -/
theorem claim2_secret_isolation_witness :
    CW.secret ≠ CW2.secret ∧
    Claims.new CW 0 [] = Except.ok ⟨Claims.encodeStr CW (Claims.mkEnvelope CW 0 [])⟩ ∧
    Claims.decode CW2 0 (Claims.fromString (Claims.token
      (⟨Claims.encodeStr CW (Claims.mkEnvelope CW 0 [])⟩ : ClaimsEncoded (List Char)))) =
      Except.error (Error.jsonwebtoken JwtError.invalidSignature) :=
  ⟨by decide, rfl, claim2_secret_isolation CW CW2 [] 0 0 _ (by decide) rfl⟩

/-- C7 counterexample: the error enum of this layer has a single
constructor, so there are not two distinguishable error kinds. -/
theorem claim7_counterexample :
    ¬ ∃ e1 e2 : Error, Error.kindIdx e1 ≠ Error.kindIdx e2 := by
  rintro ⟨⟨k1⟩, ⟨k2⟩, h⟩
  exact h rfl

/-- C7 amended: exactly one error kind surfaces at this layer, a
transparent wrapper around the primitive error, produced at decoding time
and propagated unchanged to the caller as a result value. -/
theorem claim7_amended {α : Type} :
    (∀ e : Error, ∃ k : JwtError, e = Error.jsonwebtoken k) ∧
    (∀ (C : ClaimsSub α) (now : Int) (t : ClaimsEncoded α) (k : JwtError),
      jwtDecode t.claims C.secret Validation.default now C.deser = Except.error k →
      Claims.decode C now t = Except.error (Error.jsonwebtoken k)) := by
  constructor
  · rintro ⟨k⟩
    exact ⟨k, rfl⟩
  · intro C now t k h
    simp only [Claims.decode, h]

/-- C7 amended witness: a malformed token produces a primitive error that
is wrapped unchanged. -/
theorem claim7_amended_witness :
    jwtDecode (Claims.token (⟨['x']⟩ : ClaimsEncoded (List Char))) CW.secret
      Validation.default 0 CW.deser = Except.error JwtError.invalidToken ∧
    Claims.decode CW 0 ⟨['x']⟩ = Except.error (Error.jsonwebtoken JwtError.invalidToken) :=
  ⟨rfl, claim7_amended.2 CW 0 ⟨['x']⟩ JwtError.invalidToken rfl⟩

/-- A token whose signature segment is dot-free but differs from the
signature of its message fails the signature check. -/
theorem jwtDecode_bad_sig {α : Type} (body secret : List Char) (v : Validation) (now : Int)
    (deser : List Char → Option α) (sig2 : List Char)
    (hneq : sig2 ≠ signModel secret (jwtMessage body)) (hdot : '.' ∉ sig2) :
    jwtDecode (jwtMessage body ++ '.' :: sig2) secret v now deser =
      .error .invalidSignature := by
  have h1 : rsplitDot (jwtMessage body ++ '.' :: sig2) = some (jwtMessage body, sig2) :=
    rsplitDot_append _ hdot
  have h2 : rsplitDot (jwtMessage body) = some (encStr headerHS256, encStr body) := by
    rw [jwtMessage]
    exact rsplitDot_append _ (encStr_no_dot body)
  have hsig : ¬ (signModel secret (jwtMessage body) = sig2) := fun he => hneq he.symm
  simp only [jwtDecode, h1, h2, decStr_encStr, eq_self_iff_true, if_true, if_neg hsig]

/-- A token whose signature segment contains an extra dot fails while
decoding the header segment, since the last-dot split then leaves a dot
inside the header part. -/
theorem jwtDecode_dotted_sig {α : Type} (body secret : List Char) (v : Validation) (now : Int)
    (deser : List Char → Option α) (s1 s2 : List Char)
    (h1 : '.' ∉ s1) (h2 : '.' ∉ s2) :
    jwtDecode (jwtMessage body ++ '.' :: (s1 ++ '.' :: s2)) secret v now deser =
      .error .base64Error := by
  have hassoc : jwtMessage body ++ '.' :: (s1 ++ '.' :: s2) =
      (jwtMessage body ++ '.' :: s1) ++ '.' :: s2 := by
    simp [List.append_assoc]
  have ha : rsplitDot ((jwtMessage body ++ '.' :: s1) ++ '.' :: s2) =
      some (jwtMessage body ++ '.' :: s1, s2) := rsplitDot_append _ h2
  have hb : rsplitDot (jwtMessage body ++ '.' :: s1) = some (jwtMessage body, s1) :=
    rsplitDot_append _ h1
  have hc : decStr (jwtMessage body) = none := by
    rw [jwtMessage, decStr_encStr_append, decStr_dot_cons]
    rfl
  rw [hassoc]
  simp only [jwtDecode, ha, hb, hc]

/-- C8: flipping any single character of the signature segment of a
validly encoded token makes decode fail; the tampered token is never
accepted. -/
theorem claim8_tamper {α : Type} (C : ClaimsSub α) (d : Decoded α) (now : Int)
    (i : Nat) (c : Char) (hi : i < (Claims.sigStr C d).length)
    (hc : c ≠ (Claims.sigStr C d).get ⟨i, hi⟩) :
    isErr (Claims.decode C now (Claims.fromString
      (Claims.msgStr C d ++ '.' :: (Claims.sigStr C d).set i c))) = true := by
  have hnodot : ∀ ch ∈ Claims.sigStr C d, ch ≠ '.' := by
    intro ch hm he
    rcases signModel_chars hm with hh | hh
    · rw [he] at hh
      simp [isHexC, hexVal] at hh
    · rw [he] at hh
      simp at hh
  by_cases hdot : c = '.'
  · subst hdot
    rw [List.set_eq_take_cons_drop '.' hi]
    have hs1 : '.' ∉ (Claims.sigStr C d).take i := fun hm =>
      hnodot _ (List.take_subset _ _ hm) rfl
    have hs2 : '.' ∉ (Claims.sigStr C d).drop (i + 1) := fun hm =>
      hnodot _ (List.drop_subset _ _ hm) rfl
    have hd := jwtDecode_dotted_sig (serializeDecoded C d) C.secret Validation.default now
      C.deser ((Claims.sigStr C d).take i) ((Claims.sigStr C d).drop (i + 1)) hs1 hs2
    simp only [Claims.decode, Claims.fromString, Claims.msgStr, Claims.sigStr] at hd ⊢
    rw [hd]
    rfl
  · have hdotfree : '.' ∉ (Claims.sigStr C d).set i c := by
      intro hm
      rcases List.mem_or_eq_of_mem_set hm with hm | hm
      · exact hnodot _ hm rfl
      · exact hdot hm.symm
    have hneq : (Claims.sigStr C d).set i c ≠ Claims.sigStr C d := by
      intro he
      have h1 : ((Claims.sigStr C d).set i c)[i]? = some c := List.getElem?_set_self hi
      rw [he] at h1
      have h2 : (Claims.sigStr C d)[i]? = some ((Claims.sigStr C d).get ⟨i, hi⟩) := by
        rw [List.getElem?_eq_getElem hi]
        rfl
      rw [h2] at h1
      exact hc (Option.some.inj h1).symm
    have hd := jwtDecode_bad_sig (serializeDecoded C d) C.secret Validation.default now
      C.deser ((Claims.sigStr C d).set i c)
      (by
        intro he
        exact hneq (by rw [he]; rfl))
      hdotfree
    simp only [Claims.decode, Claims.fromString, Claims.msgStr, Claims.sigStr] at hd ⊢
    rw [hd]
    rfl

set_option maxRecDepth 8192 in
/-- C8 witness: a concrete flipped signature character is rejected. -/
theorem claim8_tamper_witness :
    (0 : Nat) < (Claims.sigStr CW dW).length ∧
    isErr (Claims.decode CW 0 (Claims.fromString
      (Claims.msgStr CW dW ++ '.' :: (Claims.sigStr CW dW).set 0 'z'))) = true :=
  ⟨by decide, claim8_tamper CW dW 0 0 'z' (by decide) (by decide)⟩

end JwtSpec
